import Mathlib

/-!
Verification of the AqLedLightning firmware (src/main.cpp).

The development shallowly embeds the parts of the firmware that the
specification talks about: the schedule store and its set/get handlers,
the override state, the per-tick lighting control loop, the diagnostic
log with its chunked streaming callback, and the static-file content
type dispatch.  Machine integers are modelled as `Nat`/`Int` with the
`uint8_t` truncation made explicit as `% 256`.
-/

namespace AqLed

/-! ## Arduino string primitives used by the request handlers

`String::toInt` is `atol` on the underlying buffer: skip leading
whitespace, an optional single sign, then a run of decimal digits
(an empty run yields 0).  `String::indexOf(",")` returns the position
of the first comma or -1.  `String::substring(n)` drops the first `n`
characters.  Strings are modelled as `List Char`. -/

/-- Digit run of `atol`: consume leading decimal digits, accumulating
`acc * 10 + digit`; stop at the first non-digit. -/
def parseDigits : List Char → Nat → Nat
  | [], acc => acc
  | c :: cs, acc =>
    if c.isDigit then parseDigits cs (acc * 10 + (c.toNat - 48)) else acc

/-- Sign handling of `atol`, applied after leading whitespace is gone. -/
def atolAfterWs : List Char → Int
  | [] => 0
  | c :: cs =>
    if c = '-' then - (parseDigits cs 0 : Int)
    else if c = '+' then (parseDigits cs 0 : Int)
    else (parseDigits (c :: cs) 0 : Int)

/-- `atol` as called by Arduino `String::toInt` (src/main.cpp uses
`value.toInt()`): skip whitespace, optional sign, then digits. -/
def atol (s : List Char) : Int :=
  atolAfterWs (s.dropWhile Char.isWhitespace)

/-- Position scan for `String::indexOf(",")`. -/
def indexOfAux : List Char → Nat → Int
  | [], _ => -1
  | c :: cs, pos => if c = ',' then (pos : Int) else indexOfAux cs (pos + 1)

/-- `value.indexOf(",")` of src/main.cpp: index of the first comma, -1 if none. -/
def indexOfC (s : List Char) : Int := indexOfAux s 0

/-! ## Controller state

The free global variables of src/main.cpp that the specified core
reads and writes: `settings` (the 48-byte schedule, line 64), the
persisted EEPROM copy (lines 385-386), `overrule`/`ovA`/`ovB`
(lines 65-66), `intensityA`/`intensityB` (lines 61-62) and the local
time counter `ltime` (line 63, a `time_t` advanced once per second). -/

structure CtrlState where
  settings : List Nat
  eeprom : List Nat
  overrule : Bool
  ovA : Nat
  ovB : Nat
  intensityA : Nat
  intensityB : Nat
  ltime : Nat
deriving DecidableEq

/-- The parsing loop of `handle_setconf` (src/main.cpp lines 375-383):
48 iterations; each stores `value.toInt()` truncated to `uint8_t`
(mod 256), then skips past the first comma when one exists at a
position `> 0`, leaving `value` unchanged otherwise. -/
def setconfLoop : Nat → List Char → List Nat
  | 0, _ => []
  | Nat.succ n, value =>
    ((atol value) % 256).toNat ::
      setconfLoop n
        (if 0 < indexOfC value then value.drop ((indexOfC value).toNat + 1)
         else value)

/-- `handle_setconf` (src/main.cpp lines 365-389): parse 48 settings
from the request parameter, clear `overrule`, persist to EEPROM and
reply with a fixed success text.  There is no failure path. -/
def handle_setconf (st : CtrlState) (value : List Char) : CtrlState × String :=
  let vals := setconfLoop 48 value
  ({ st with settings := vals, eeprom := vals, overrule := false },
   "SET command accepted")

/-- The read of the schedule table performed by `handle_getconf`
(src/main.cpp lines 350-354): the 48 indexed values in order. -/
def snapshot (st : CtrlState) : List Nat :=
  (List.range 48).map (fun i => st.settings.getD i 0)

/-- `handle_overrule` (src/main.cpp lines 398-417): set the overrule
flag, parse `ovA`; `ovB` is only re-assigned when a comma is found
at a position `> 0`. -/
def handle_overrule (st : CtrlState) (value : List Char) : CtrlState × String :=
  let a := ((atol value) % 256).toNat
  let inx := indexOfC value
  let st2 :=
    if 0 < inx then
      { st with overrule := true, ovA := a,
                ovB := ((atol (value.drop (inx.toNat + 1))) % 256).toNat }
    else
      { st with overrule := true, ovA := a }
  (st2, "Overrule command accepted")

/-! ## Decimal rendering of request bodies

The control surface receives comma-separated decimal integers.  The
renderer below produces the canonical decimal form used to state the
round-trip claims; it is fuel-based so that witnesses evaluate inside
the kernel. -/

/-- The character of a decimal digit. -/
def digitChar (d : Nat) : Char := Char.ofNat (48 + d)

/-- Fuel-based most-significant-first decimal rendering. -/
def renderAux : Nat → Nat → List Char → List Char
  | 0, _, acc => acc
  | Nat.succ fuel, n, acc =>
    if n = 0 then acc
    else renderAux fuel (n / 10) (digitChar (n % 10) :: acc)

/-- Decimal rendering of a natural number. -/
def render (v : Nat) : List Char :=
  if v = 0 then ['0'] else renderAux (v + 1) v []

/-- Decimal rendering of an integer (leading minus sign when negative). -/
def renderInt (v : Int) : List Char :=
  if v < 0 then '-' :: render v.natAbs else render v.toNat

/-- A comma-separated, comma-terminated request body for a list of
settings, the same shape `handle_getconf` produces. -/
def encodeCSV (s : List Nat) : List Char :=
  (s.map (fun v => render v ++ [','])).flatten

/-- Integer variant of `encodeCSV`, for out-of-range inputs. -/
def encodeCSVI (s : List Int) : List Char :=
  (s.map (fun v => renderInt v ++ [','])).flatten

/-! ## The lighting control loop (src/main.cpp lines 535-580)

`loop()` refreshes `ltime` only when the time client reports success
and the refresh timer is due; it then computes target intensities
(override pair when `overrule` is set, otherwise the two schedule
slots of the current hour) and writes each channel only on change. -/

/-- `hour(ltime)` of the TimeLib collaborator for a nonnegative
`time_t`: seconds-of-epoch to hour-of-day. -/
def hourOf (t : Nat) : Nat := t / 3600 % 24

/-- The `ltime` refresh step (src/main.cpp lines 548-556): only when
`timeClient.update()` succeeded (`ok`) and the refresh timer is due
(`rd`) is `ltime` replaced by the freshly converted local time `u`. -/
def refreshLtime (st : CtrlState) (ok rd : Bool) (u : Nat) : CtrlState :=
  if ok && rd then { st with ltime := u } else st

/-- The target-intensity decision (src/main.cpp lines 557-567):
override pair when `overrule` is set, else the schedule slots
`values[hour*2]` and `values[hour*2+1]`. -/
def tickTargets (st : CtrlState) : Nat × Nat :=
  if st.overrule then (st.ovA, st.ovB)
  else (st.settings.getD (hourOf st.ltime * 2) 0,
        st.settings.getD (hourOf st.ltime * 2 + 1) 0)

/-- Result of one tick: the new state and the `analogWrite` calls
issued (one optional write per channel). -/
structure TickOut where
  state : CtrlState
  writeA : Option Nat
  writeB : Option Nat
deriving DecidableEq

/-- One pass of `loop()` (src/main.cpp lines 535-580): refresh local
time, decide targets, and for each channel write the output only when
the target differs from the last written intensity (lines 568-577). -/
def loopTick (st : CtrlState) (ok rd : Bool) (u : Nat) : TickOut :=
  let st1 := refreshLtime st ok rd u
  let newA := (tickTargets st1).1
  let newB := (tickTargets st1).2
  { state := { st1 with intensityA := newA, intensityB := newB },
    writeA := if newA = st1.intensityA then none else some newA,
    writeB := if newB = st1.intensityB then none else some newB }

/-- A run of consecutive ticks with fixed tick inputs, collecting the
writes each tick issues. -/
def runTicks (ok rd : Bool) (u : Nat) : Nat → CtrlState → List (Option Nat × Option Nat)
  | 0, _ => []
  | Nat.succ n, st =>
    ((loopTick st ok rd u).writeA, (loopTick st ok rd u).writeB) ::
      runTicks ok rd u n (loopTick st ok rd u).state

/-! ## The diagnostic log -/

/-- `dbgprint` admission (src/main.cpp lines 94-97, with `DEBUG = 1`):
the formatted line is appended to `dbglines` only while free heap is
strictly above the 8000-byte safety threshold; nothing is ever
removed. -/
def dbgprint (freeHeap : Nat) (dbg : List (List Char)) (line : List Char) :
    List (List Char) :=
  if 8000 < freeHeap then dbg ++ [line] else dbg

/-- The persistent iteration state of `cb_logging` (src/main.cpp lines
245-280): the static variables `i` (next line index), `nrl` (line
count captured at reset) and the unread remainder of `linebuf` from
`p_in` on. -/
structure LogGen where
  i : Nat
  nrl : Nat
  rem : List Char
deriving DecidableEq

/-- The `while (maxLen-- > 0)` loop of `cb_logging`: emit the next
buffered character; when the buffer is exhausted, stop if all `nrl`
lines were sent, otherwise load the next line plus a newline and emit
its first character in the same iteration. -/
def cbLoop (dbg : List (List Char)) : Nat → LogGen → List Char × LogGen
  | 0, gs => ([], gs)
  | Nat.succ m, ⟨i, nrl, []⟩ =>
    if i = nrl then ([], ⟨i, nrl, []⟩)
    else
      ((dbg.getD i [] ++ ['\n']).headD ' ' ::
         (cbLoop dbg m ⟨i + 1, nrl, (dbg.getD i [] ++ ['\n']).tail⟩).1,
       (cbLoop dbg m ⟨i + 1, nrl, (dbg.getD i [] ++ ['\n']).tail⟩).2)
  | Nat.succ m, ⟨i, nrl, c :: rest⟩ =>
    (c :: (cbLoop dbg m ⟨i, nrl, rest⟩).1, (cbLoop dbg m ⟨i, nrl, rest⟩).2)

/-- `cb_logging` (src/main.cpp lines 245-280): chunk callback; a call
with cursor `index = 0` resets the static iteration state, then the
copy loop fills at most `maxLen` bytes. -/
def cb_logging (dbg : List (List Char)) (maxLen index : Nat) (gs : LogGen) :
    List Char × LogGen :=
  cbLoop dbg maxLen (if index = 0 then ⟨0, dbg.length, []⟩ else gs)

/-- The stored lines as the byte stream the callback is meant to
produce: each line followed by a newline. -/
def joinLines (dbg : List (List Char)) : List Char :=
  (dbg.map (fun l => l ++ ['\n'])).flatten

/-- Bytes the generator still has to produce from state `gs`. -/
def pendingBytes (dbg : List (List Char)) (gs : LogGen) : List Char :=
  gs.rem ++ ((dbg.drop gs.i).map (fun l => l ++ ['\n'])).flatten

/-- Consistency of the generator state with the log. -/
abbrev GenInv (dbg : List (List Char)) (gs : LogGen) : Prop :=
  gs.nrl = dbg.length ∧ gs.i ≤ dbg.length

/-- The chunked-transfer driver as the web library runs it: first call
at cursor 0, each further call at the cumulative byte count; a chunk
shorter than `maxLen` ends the stream.  Fuel-bounded. -/
def streamPass (dbg : List (List Char)) (k : Nat) : Nat → Nat → LogGen → List (List Char)
  | 0, _, _ => []
  | Nat.succ n, index, gs =>
    if (cb_logging dbg k index gs).1.length < k then [(cb_logging dbg k index gs).1]
    else (cb_logging dbg k index gs).1 ::
      streamPass dbg k n (index + (cb_logging dbg k index gs).1.length)
        (cb_logging dbg k index gs).2

/-- Same driver directly on `cbLoop`, without the cursor bookkeeping. -/
def chunkRun (dbg : List (List Char)) (k : Nat) : Nat → LogGen → List (List Char)
  | 0, _ => []
  | Nat.succ n, gs =>
    if (cbLoop dbg k gs).1.length < k then [(cbLoop dbg k gs).1]
    else (cbLoop dbg k gs).1 :: chunkRun dbg k n (cbLoop dbg k gs).2

/-! ## Static file serving -/

/-- `getContentType` (src/main.cpp lines 224-236): extension dispatch;
`.pw` password files map to the empty string, anything unrecognized
falls through to `text/plain`. -/
def getContentType (filename : List Char) : String :=
  if (".html".toList).isSuffixOf filename then "text/html"
  else if (".png".toList).isSuffixOf filename then "image/png"
  else if (".gif".toList).isSuffixOf filename then "image/gif"
  else if (".jpg".toList).isSuffixOf filename then "image/jpeg"
  else if (".ico".toList).isSuffixOf filename then "image/x-icon"
  else if (".css".toList).isSuffixOf filename then "text/css"
  else if (".zip".toList).isSuffixOf filename then "application/x-zip"
  else if (".gz".toList).isSuffixOf filename then "application/x-gzip"
  else if (".pw".toList).isSuffixOf filename then ""
  else "text/plain"

/-- Outcome of a static-asset request. -/
inductive FileResponse where
  | notFound : FileResponse
  | fileSend : List Char → String → FileResponse
deriving DecidableEq

/-- `onFileRequest` (src/main.cpp lines 426-443): an empty content
type is refused with 404.  The missing-file branch models the web
library collaborator's `request->send(LittleFS, fnam, ct)`, which
replies 404 when the path does not exist (spec: `NotFound` for a
missing resource); file existence is abstracted as a predicate. -/
def onFileRequest (fsExists : List Char → Bool) (fnam : List Char) : FileResponse :=
  if getContentType fnam = "" then FileResponse.notFound
  else if fsExists fnam then FileResponse.fileSend fnam (getContentType fnam)
  else FileResponse.notFound

/-! ## Correctness of decimal parsing against the renderer -/

lemma digitChar_lt10 (d : Nat) (hd : d < 10) :
    (digitChar d).isDigit = true ∧ (digitChar d).toNat = 48 + d ∧
    digitChar d ≠ ',' ∧ (digitChar d).isWhitespace = false ∧
    digitChar d ≠ '-' ∧ digitChar d ≠ '+' := by
  interval_cases d <;> exact ⟨by decide, by decide, by decide, by decide, by decide, by decide⟩

lemma parseDigits_digits (bs : List Nat) (rest : List Char) (acc : Nat)
    (h : ∀ d ∈ bs, d < 10) :
    parseDigits (bs.map digitChar ++ rest) acc =
      parseDigits rest (bs.foldl (fun a d => a * 10 + d) acc) := by
  induction bs generalizing acc with
  | nil => rfl
  | cons d tl ih =>
    have hd : d < 10 := h d (List.mem_cons_self d tl)
    obtain ⟨h1, h2, -, -, -, -⟩ := digitChar_lt10 d hd
    have h48 : 48 + d - 48 = d := by omega
    simp only [List.map_cons, List.cons_append, parseDigits, h1, if_true, h2, h48,
      List.foldl_cons]
    exact ih _ (fun x hx => h x (List.mem_cons_of_mem _ hx))

lemma foldl_reverse_ofDigits (ds : List Nat) (a : Nat) :
    (ds.reverse).foldl (fun x d => x * 10 + d) a =
      a * 10 ^ ds.length + Nat.ofDigits 10 ds := by
  induction ds generalizing a with
  | nil => simp [Nat.ofDigits]
  | cons d tl ih =>
    simp only [List.reverse_cons, List.foldl_append, ih, Nat.ofDigits_cons,
      List.length_cons, List.foldl_cons, List.foldl_nil, Nat.cast_id]
    ring

lemma renderAux_eq (n : Nat) : ∀ (fuel : Nat) (acc : List Char), n ≤ fuel →
    renderAux fuel n acc = ((Nat.digits 10 n).reverse.map digitChar) ++ acc := by
  induction n using Nat.strong_induction_on with
  | _ n ih =>
    intro fuel acc hle
    match fuel with
    | 0 =>
      have h0 : n = 0 := by omega
      subst h0
      simp [renderAux]
    | Nat.succ f =>
      by_cases h0 : n = 0
      · subst h0; simp [renderAux]
      · have hlt : n / 10 < n := Nat.div_lt_self (Nat.pos_of_ne_zero h0) (by norm_num)
        have hrec := ih (n / 10) hlt f (digitChar (n % 10) :: acc) (by omega)
        simp only [renderAux, h0, if_false]
        rw [hrec, Nat.digits_def' (by norm_num : (1:ℕ) < 10) (Nat.pos_of_ne_zero h0)]
        simp

lemma render_spec (v : Nat) :
    ∃ bs : List Nat, render v = bs.map digitChar ∧ (∀ d ∈ bs, d < 10) ∧
      bs ≠ [] ∧ bs.foldl (fun a d => a * 10 + d) 0 = v := by
  by_cases h0 : v = 0
  · subst h0
    exact ⟨[0], by decide, by decide, by simp, rfl⟩
  · refine ⟨(Nat.digits 10 v).reverse, ?_, ?_, ?_, ?_⟩
    · rw [render, if_neg h0, renderAux_eq v (v + 1) [] (by omega)]
      simp
    · intro d hd
      rw [List.mem_reverse] at hd
      exact Nat.digits_lt_base (by norm_num) hd
    · simp [Nat.digits_ne_nil_iff_ne_zero.mpr h0]
    · rw [foldl_reverse_ofDigits]
      simp [Nat.ofDigits_digits]

lemma parseDigits_render (v : Nat) (r : List Char) :
    parseDigits (render v ++ ',' :: r) 0 = v := by
  obtain ⟨bs, hb, hlt, -, hfold⟩ := render_spec v
  have hc : (',' : Char).isDigit = false := by decide
  rw [hb, parseDigits_digits bs (',' :: r) 0 hlt, hfold]
  simp [parseDigits, hc]

lemma render_no_comma (v : Nat) : ∀ c ∈ render v, c ≠ ',' := by
  obtain ⟨bs, hb, hlt, -, -⟩ := render_spec v
  rw [hb]
  intro c hc
  obtain ⟨d, hd, rfl⟩ := List.mem_map.mp hc
  exact (digitChar_lt10 d (hlt d hd)).2.2.1

lemma render_length_pos (v : Nat) : 0 < (render v).length := by
  obtain ⟨bs, hb, -, hne, -⟩ := render_spec v
  rw [hb, List.length_map]
  exact List.length_pos.mpr hne

lemma atol_render (v : Nat) (r : List Char) :
    atol (render v ++ ',' :: r) = (v : Int) := by
  obtain ⟨bs, hb, hlt, hne, hfold⟩ := render_spec v
  have hp : parseDigits (render v ++ ',' :: r) 0 = v := parseDigits_render v r
  match bs, hne with
  | b :: bs', _ =>
    have hdb : b < 10 := hlt b (List.mem_cons_self _ _)
    obtain ⟨-, -, -, h4, h5, h6⟩ := digitChar_lt10 b hdb
    rw [hb] at hp ⊢
    simp only [List.map_cons, List.cons_append] at hp ⊢
    rw [atol, List.dropWhile_cons, if_neg (by simp [h4])]
    rw [atolAfterWs, if_neg h5, if_neg h6, hp]

lemma indexOfAux_append (l r : List Char) (h : ∀ c ∈ l, c ≠ ',') :
    ∀ pos : Nat, indexOfAux (l ++ ',' :: r) pos = ((pos + l.length : Nat) : Int) := by
  induction l with
  | nil => intro pos; simp [indexOfAux]
  | cons c cs ih =>
    intro pos
    have hc : c ≠ ',' := h c (List.mem_cons_self _ _)
    simp only [List.cons_append, indexOfAux, hc, if_false, List.append_eq]
    rw [ih (fun x hx => h x (List.mem_cons_of_mem _ hx)) (pos + 1)]
    simp only [List.length_cons]
    push_cast
    ring

lemma drop_append_comma (l r : List Char) :
    (l ++ ',' :: r).drop (l.length + 1) = r := by
  have h : l ++ ',' :: r = (l ++ [',']) ++ r := by simp
  have h2 : (l ++ [',']).length = l.length + 1 := by simp
  rw [h, ← h2, List.drop_left]

lemma setconfLoop_cons (n v : Nat) (r : List Char) :
    setconfLoop (n + 1) (render v ++ ',' :: r) = (v % 256) :: setconfLoop n r := by
  have hidx : indexOfC (render v ++ ',' :: r) = ((render v).length : Int) := by
    rw [indexOfC, indexOfAux_append (render v) r (render_no_comma v) 0]
    simp
  have hlen := render_length_pos v
  have hpos : (0 : Int) < ((render v).length : Int) := by exact_mod_cast hlen
  have hm : (((v : Nat) : Int) % 256).toNat = v % 256 := by omega
  rw [setconfLoop, atol_render, hidx, if_pos hpos, hm]
  have ht : (((render v).length : Int)).toNat + 1 = (render v).length + 1 := by omega
  rw [ht, drop_append_comma]

lemma setconfLoop_nil (n : Nat) : setconfLoop n [] = List.replicate n 0 := by
  induction n with
  | zero => rfl
  | succ m ih =>
    have h1 : atol [] = 0 := rfl
    have h2 : indexOfC [] = -1 := rfl
    have h3 : ¬ (0 : Int) < -1 := by norm_num
    rw [setconfLoop, h1, h2, if_neg h3]
    simp [ih, List.replicate_succ]

lemma encodeCSV_cons (v : Nat) (s : List Nat) :
    encodeCSV (v :: s) = render v ++ ',' :: encodeCSV s := by
  simp [encodeCSV]

lemma setconfLoop_encodeCSV (s : List Nat) :
    ∀ n : Nat, s.length ≤ n →
    setconfLoop n (encodeCSV s) =
      s.map (fun v => v % 256) ++ List.replicate (n - s.length) 0 := by
  induction s with
  | nil => intro n h; simp [encodeCSV, setconfLoop_nil]
  | cons v tl ih =>
    intro n h
    cases n with
    | zero => simp at h
    | succ m =>
      rw [encodeCSV_cons, setconfLoop_cons, ih m (by simpa using h)]
      simp [Nat.succ_sub_succ]

lemma atol_renderInt (v : Int) (r : List Char) :
    atol (renderInt v ++ ',' :: r) = v := by
  rcases lt_or_le v 0 with hv | hv
  · rw [renderInt, if_pos hv, List.cons_append]
    have hws : ('-' : Char).isWhitespace = false := by decide
    rw [atol, List.dropWhile_cons, if_neg (by simp [hws])]
    rw [atolAfterWs, if_pos rfl, parseDigits_render]
    omega
  · rw [renderInt, if_neg (not_lt.mpr hv), atol_render]
    omega

lemma renderInt_no_comma (v : Int) : ∀ c ∈ renderInt v, c ≠ ',' := by
  intro c hc
  rw [renderInt] at hc
  by_cases hv : v < 0
  · rw [if_pos hv] at hc
    rcases List.mem_cons.mp hc with h | h
    · subst h; decide
    · exact render_no_comma _ c h
  · rw [if_neg hv] at hc
    exact render_no_comma _ c hc

lemma renderInt_length_pos (v : Int) : 0 < (renderInt v).length := by
  rw [renderInt]
  by_cases hv : v < 0
  · rw [if_pos hv]; simp
  · rw [if_neg hv]; exact render_length_pos _

lemma setconfLoopI_cons (n : Nat) (v : Int) (r : List Char) :
    setconfLoop (n + 1) (renderInt v ++ ',' :: r) =
      (v % 256).toNat :: setconfLoop n r := by
  have hidx : indexOfC (renderInt v ++ ',' :: r) = ((renderInt v).length : Int) := by
    rw [indexOfC, indexOfAux_append (renderInt v) r (renderInt_no_comma v) 0]
    norm_num
  have hlen := renderInt_length_pos v
  have hpos : (0 : Int) < ((renderInt v).length : Int) := by exact_mod_cast hlen
  rw [setconfLoop, atol_renderInt, hidx, if_pos hpos]
  have ht : (((renderInt v).length : Int)).toNat + 1 = (renderInt v).length + 1 := by
    omega
  rw [ht, drop_append_comma]

lemma encodeCSVI_cons (v : Int) (s : List Int) :
    encodeCSVI (v :: s) = renderInt v ++ ',' :: encodeCSVI s := by
  simp [encodeCSVI]

lemma setconfLoop_encodeCSVI (s : List Int) :
    ∀ n : Nat, s.length ≤ n →
    setconfLoop n (encodeCSVI s) =
      s.map (fun v => (v % 256).toNat) ++ List.replicate (n - s.length) 0 := by
  induction s with
  | nil => intro n h; simp [encodeCSVI, setconfLoop_nil]
  | cons v tl ih =>
    intro n h
    cases n with
    | zero => simp at h
    | succ m =>
      rw [encodeCSVI_cons, setconfLoopI_cons, ih m (by simpa using h)]
      simp [Nat.succ_sub_succ]

/-! ## Snapshot of the schedule store -/

lemma range_map_getD (l : List Nat) :
    (List.range l.length).map (fun i => l.getD i 0) = l := by
  induction l with
  | nil => rfl
  | cons a tl ih =>
    rw [List.length_cons, List.range_succ_eq_map, List.map_cons, List.map_map]
    have h1 : List.map ((fun i => (a :: tl).getD i 0) ∘ Nat.succ) (List.range tl.length)
        = List.map (fun i => tl.getD i 0) (List.range tl.length) :=
      List.map_congr_left (fun x _ => by simp [List.getD_cons_succ])
    rw [h1, ih]
    simp

lemma snapshot_settings (st : CtrlState) (h : st.settings.length = 48) :
    snapshot st = st.settings := by
  rw [snapshot, ← h, range_map_getD]

lemma snapshot_getD (st : CtrlState) (k : Nat) (hk : k < 48) :
    (snapshot st).getD k 0 = st.settings.getD k 0 := by
  rw [snapshot, List.getD_eq_getElem?_getD, List.getElem?_map, List.getElem?_range hk]
  simp

/-! ## Claim C1 -/

/-- Initial state for the C1 scenario: a fully populated schedule (all
slots 7), the same block persisted, and an active override. -/
def c1state : CtrlState :=
  ⟨List.replicate 48 7, List.replicate 48 7, true, 9, 9, 0, 0, 0⟩

/-- A set-schedule request body carrying only 10 values. -/
def c1input : List Char := encodeCSV [10, 20, 30, 40, 50, 60, 70, 80, 90, 99]

/-- C1 counterexample: a `replace` with only 10 values does not fail
(the reply is the unconditional success text) and it does mutate state:
the in-memory schedule and the persisted block change, and the active
override is cleared — contradicting the claimed `IncompleteSchedule`
failure with no state mutation. -/
theorem c1_counterexample :
    (handle_setconf c1state c1input).2 = "SET command accepted" ∧
    (handle_setconf c1state c1input).1.settings ≠ c1state.settings ∧
    (handle_setconf c1state c1input).1.overrule = false ∧
    (handle_setconf c1state c1input).1.eeprom ≠ c1state.eeprom := by
  exact ⟨rfl, by decide, rfl, by decide⟩

/-- C1 (amended): a set-schedule request with fewer than 48 supplied
values does not fail.  The handler replies with the fixed success text,
writes all 48 slots — the supplied values (mod 256) followed by zeros,
because re-parsing the exhausted remainder yields 0 — clears any active
override, and persists the new block to EEPROM. -/
theorem c1_short_input_accepted (s : List Nat) (st : CtrlState)
    (h : s.length ≤ 48) :
    (handle_setconf st (encodeCSV s)).2 = "SET command accepted" ∧
    (handle_setconf st (encodeCSV s)).1.settings =
      s.map (fun v => v % 256) ++ List.replicate (48 - s.length) 0 ∧
    (handle_setconf st (encodeCSV s)).1.overrule = false ∧
    (handle_setconf st (encodeCSV s)).1.eeprom =
      s.map (fun v => v % 256) ++ List.replicate (48 - s.length) 0 := by
  refine ⟨rfl, ?_, rfl, ?_⟩ <;>
    simp [handle_setconf, setconfLoop_encodeCSV s 48 h]

/-- Witness for C1 (amended) at the 10-value input. -/
theorem c1_witness :
    (handle_setconf c1state c1input).2 = "SET command accepted" ∧
    (handle_setconf c1state c1input).1.settings =
      [10, 20, 30, 40, 50, 60, 70, 80, 90, 99].map (fun v => v % 256) ++
        List.replicate (48 - ([10, 20, 30, 40, 50, 60, 70, 80, 90, 99] : List Nat).length) 0 ∧
    (handle_setconf c1state c1input).1.overrule = false ∧
    (handle_setconf c1state c1input).1.eeprom =
      [10, 20, 30, 40, 50, 60, 70, 80, 90, 99].map (fun v => v % 256) ++
        List.replicate (48 - ([10, 20, 30, 40, 50, 60, 70, 80, 90, 99] : List Nat).length) 0 :=
  c1_short_input_accepted [10, 20, 30, 40, 50, 60, 70, 80, 90, 99] c1state (by decide)

/-! ## Claim C2 -/

/-- C2: for every sequence of 48 values in 0..100, `replace` (the
set-schedule handler fed the comma-separated encoding) followed by
the get-schedule handler's read of the table returns exactly the
sequence, slot for slot. -/
theorem c2_roundtrip (s : List Nat) (st : CtrlState) (hlen : s.length = 48)
    (hval : ∀ v ∈ s, v ≤ 100) :
    snapshot (handle_setconf st (encodeCSV s)).1 = s := by
  have h48 : s.length ≤ 48 := le_of_eq hlen
  have hset : (handle_setconf st (encodeCSV s)).1.settings =
      s.map (fun v => v % 256) ++ List.replicate (48 - s.length) 0 := by
    simp [handle_setconf, setconfLoop_encodeCSV s 48 h48]
  have hmap : s.map (fun v => v % 256) = s := by
    have h1 : ∀ a ∈ s, a % 256 = id a := fun a ha => by
      have := hval a ha
      simp only [id]
      omega
    exact (List.map_congr_left h1).trans (List.map_id s)
  have hl : (handle_setconf st (encodeCSV s)).1.settings.length = 48 := by
    rw [hset]
    simp [hlen]
  rw [snapshot_settings _ hl, hset, hmap, hlen]
  simp

/-- Witness for C2 at a concrete 48-value schedule. -/
theorem c2_witness :
    snapshot (handle_setconf ⟨[], [], true, 1, 2, 3, 4, 5⟩
        (encodeCSV (List.replicate 48 5))).1 = List.replicate 48 5 :=
  c2_roundtrip (List.replicate 48 5) ⟨[], [], true, 1, 2, 3, 4, 5⟩
    (by decide) (by decide)

/-! ## Claim C10 -/

/-- C10: every integer parsed from a set-schedule request is stored in
its slot reduced mod 256 (the `long` to `uint8_t` truncation), so the
replace-then-snapshot round trip holds only up to this reduction for
inputs outside 0..255. -/
theorem c10_mod256 (s : List Int) (st : CtrlState) (hlen : s.length = 48) :
    snapshot (handle_setconf st (encodeCSVI s)).1 =
      s.map (fun v => (v % 256).toNat) := by
  have h48 : s.length ≤ 48 := le_of_eq hlen
  have hset : (handle_setconf st (encodeCSVI s)).1.settings =
      s.map (fun v => (v % 256).toNat) ++ List.replicate (48 - s.length) 0 := by
    simp [handle_setconf, setconfLoop_encodeCSVI s 48 h48]
  have hl : (handle_setconf st (encodeCSVI s)).1.settings.length = 48 := by
    rw [hset]
    simp [hlen]
  rw [snapshot_settings _ hl, hset, hlen]
  simp

/-! ## Tick-loop lemmas -/

lemma hourOf_lt (t : Nat) : hourOf t < 24 := by
  unfold hourOf
  omega

lemma tickTargets_set_intensity (st : CtrlState) (a b : Nat) :
    tickTargets { st with intensityA := a, intensityB := b } = tickTargets st := rfl

lemma loopTick_state_intensities (st : CtrlState) (rd : Bool) (u : Nat) :
    (loopTick st false rd u).state =
      { st with intensityA := (tickTargets st).1,
                intensityB := (tickTargets st).2 } := rfl

lemma loopTick_fixed (st : CtrlState) (rd : Bool) (u : Nat)
    (ha : (tickTargets st).1 = st.intensityA)
    (hb : (tickTargets st).2 = st.intensityB) :
    loopTick st false rd u = ⟨st, none, none⟩ := by
  have h1 : loopTick st false rd u =
      { state := { st with intensityA := (tickTargets st).1,
                           intensityB := (tickTargets st).2 },
        writeA := if (tickTargets st).1 = st.intensityA then none
                  else some (tickTargets st).1,
        writeB := if (tickTargets st).2 = st.intensityB then none
                  else some (tickTargets st).2 } := rfl
  rw [h1, ha, hb]
  simp

lemma runTicks_fixed (rd : Bool) (u : Nat) (st : CtrlState)
    (ha : (tickTargets st).1 = st.intensityA)
    (hb : (tickTargets st).2 = st.intensityB) :
    ∀ n : Nat, runTicks false rd u n st = List.replicate n (none, none) := by
  intro n
  induction n with
  | zero => rfl
  | succ m ih =>
    rw [runTicks, loopTick_fixed st rd u ha hb]
    simp [ih, List.replicate_succ]

lemma countP_replicate_false {α : Type} (x : α) (p : α → Bool) (hp : p x = false) :
    ∀ m : Nat, (List.replicate m x).countP p = 0 := by
  intro m
  induction m with
  | zero => rfl
  | succ k ih => simp [List.replicate_succ, List.countP_cons, hp, ih]

/-! ## Diagnostic log streaming lemmas -/

lemma headD_cons_tail {α : Type} (l : List α) (x : α) (h : l ≠ []) :
    l.headD x :: l.tail = l := by
  cases l with
  | nil => exact absurd rfl h
  | cons a t => rfl

lemma pendingBytes_mk (dbg : List (List Char)) (i nrl : Nat) (rem : List Char) :
    pendingBytes dbg ⟨i, nrl, rem⟩ =
      rem ++ ((dbg.drop i).map (fun l => l ++ ['\n'])).flatten := rfl

lemma cbLoop_spec (dbg : List (List Char)) :
    ∀ (m : Nat) (gs : LogGen), GenInv dbg gs →
    (cbLoop dbg m gs).1 = (pendingBytes dbg gs).take m ∧
    pendingBytes dbg (cbLoop dbg m gs).2 = (pendingBytes dbg gs).drop m ∧
    GenInv dbg (cbLoop dbg m gs).2 := by
  intro m
  induction m with
  | zero => intro gs hg; exact ⟨rfl, rfl, hg⟩
  | succ m ih =>
    intro gs hg
    obtain ⟨i, nrl, rem⟩ := gs
    have hg2 : nrl = dbg.length ∧ i ≤ dbg.length := hg
    obtain ⟨hnrl, hi⟩ := hg2
    subst hnrl
    cases rem with
    | cons c rest =>
      obtain ⟨h1, h2, h3⟩ := ih ⟨i, dbg.length, rest⟩ ⟨rfl, hi⟩
      refine ⟨?_, ?_, h3⟩
      · show c :: (cbLoop dbg m ⟨i, dbg.length, rest⟩).1 = _
        rw [h1]
        rfl
      · show pendingBytes dbg (cbLoop dbg m ⟨i, dbg.length, rest⟩).2 = _
        rw [h2]
        rfl
    | nil =>
      by_cases hin : i = dbg.length
      · have he : cbLoop dbg (m + 1) ⟨i, dbg.length, []⟩ = ([], ⟨i, dbg.length, []⟩) := by
          simp [cbLoop, hin]
        have hp : pendingBytes dbg ⟨i, dbg.length, []⟩ = [] := by
          rw [pendingBytes_mk, hin]
          simp [List.drop_length]
        rw [he, hp]
        exact ⟨by simp, by simp, rfl, hi⟩
      · have hlt : i < dbg.length := lt_of_le_of_ne hi hin
        have hne : dbg.getD i [] ++ ['\n'] ≠ [] := by simp
        have he : cbLoop dbg (m + 1) ⟨i, dbg.length, []⟩ =
            ((dbg.getD i [] ++ ['\n']).headD ' ' ::
               (cbLoop dbg m ⟨i + 1, dbg.length, (dbg.getD i [] ++ ['\n']).tail⟩).1,
             (cbLoop dbg m ⟨i + 1, dbg.length, (dbg.getD i [] ++ ['\n']).tail⟩).2) := by
          simp [cbLoop, hin]
        obtain ⟨h1, h2, h3⟩ :=
          ih ⟨i + 1, dbg.length, (dbg.getD i [] ++ ['\n']).tail⟩
            ⟨rfl, show i + 1 ≤ dbg.length by omega⟩
        have hdrop : dbg.drop i = dbg.getD i [] :: dbg.drop (i + 1) := by
          rw [List.drop_eq_getElem_cons hlt]
          congr 1
          rw [List.getD_eq_getElem?_getD, List.getElem?_eq_getElem hlt]
          rfl
        have hpend : pendingBytes dbg ⟨i, dbg.length, []⟩ =
            (dbg.getD i [] ++ ['\n']).headD ' ' ::
              pendingBytes dbg ⟨i + 1, dbg.length, (dbg.getD i [] ++ ['\n']).tail⟩ := by
          rw [pendingBytes_mk, pendingBytes_mk, hdrop]
          rw [List.map_cons, List.flatten_cons, List.nil_append]
          rw [← headD_cons_tail (dbg.getD i [] ++ ['\n']) ' ' hne]
          rfl
        rw [he, hpend]
        refine ⟨?_, ?_, h3⟩
        · show (dbg.getD i [] ++ ['\n']).headD ' ' ::
              (cbLoop dbg m ⟨i + 1, dbg.length, (dbg.getD i [] ++ ['\n']).tail⟩).1 = _
          rw [h1]
          rfl
        · show pendingBytes dbg
              (cbLoop dbg m ⟨i + 1, dbg.length, (dbg.getD i [] ++ ['\n']).tail⟩).2 = _
          rw [h2]
          rfl

lemma chunkRun_spec (dbg : List (List Char)) (k : Nat) (hk : 0 < k) :
    ∀ (n : Nat) (gs : LogGen), GenInv dbg gs →
    (pendingBytes dbg gs).length < n * k →
    (chunkRun dbg k n gs).flatten = pendingBytes dbg gs := by
  intro n
  induction n with
  | zero =>
    intro gs hg hlen
    simp at hlen
  | succ n ih =>
    intro gs hg hlen
    obtain ⟨h1, h2, h3⟩ := cbLoop_spec dbg k gs hg
    have hlen' : (pendingBytes dbg gs).length < n * k + k := by
      rw [Nat.succ_mul] at hlen
      exact hlen
    rw [chunkRun]
    by_cases hshort : (cbLoop dbg k gs).1.length < k
    · rw [if_pos hshort]
      have hplen : (pendingBytes dbg gs).length < k := by
        rw [h1, List.length_take] at hshort
        omega
      simp [h1, List.take_of_length_le (le_of_lt hplen)]
    · rw [if_neg hshort]
      have hklen : k ≤ (pendingBytes dbg gs).length := by
        rw [h1, List.length_take] at hshort
        omega
      have hrec := ih (cbLoop dbg k gs).2 h3 (by
        rw [h2, List.length_drop]
        omega)
      rw [List.flatten_cons, hrec, h1, h2]
      exact List.take_append_drop k _

lemma streamPass_eq_chunkRun (dbg : List (List Char)) (k : Nat) (hk : 0 < k) :
    ∀ (n index : Nat) (gs : LogGen),
    streamPass dbg k n index gs =
      chunkRun dbg k n (if index = 0 then ⟨0, dbg.length, []⟩ else gs) := by
  intro n
  induction n with
  | zero => intro index gs; rfl
  | succ n ih =>
    intro index gs
    rw [streamPass, chunkRun]
    simp only [cb_logging]
    by_cases hidx : index = 0
    · subst hidx
      rw [if_pos rfl]
      by_cases hshort : (cbLoop dbg k (⟨0, dbg.length, []⟩ : LogGen)).1.length < k
      · rw [if_pos hshort, if_pos hshort]
      · rw [if_neg hshort, if_neg hshort]
        rw [ih (0 + (cbLoop dbg k (⟨0, dbg.length, []⟩ : LogGen)).1.length)
          (cbLoop dbg k (⟨0, dbg.length, []⟩ : LogGen)).2]
        rw [if_neg (by omega)]
    · rw [if_neg hidx]
      by_cases hshort : (cbLoop dbg k gs).1.length < k
      · rw [if_pos hshort, if_pos hshort]
      · rw [if_neg hshort, if_neg hshort]
        rw [ih (index + (cbLoop dbg k gs).1.length) (cbLoop dbg k gs).2]
        rw [if_neg (by omega)]

/-! ## Claim C3 -/

/-- C3: with the override inactive and the resolver reporting hour `h`
(that is, `hour(ltime) = h`), the tick's target for channel `c` (0 = A,
1 = B) is the schedule snapshot at index `h*2+c`. -/
theorem c3_schedule_targets (st : CtrlState) (h c : Nat)
    (hov : st.overrule = false) (hh : hourOf st.ltime = h) (hc : c < 2) :
    (if c = 0 then (tickTargets st).1 else (tickTargets st).2) =
      (snapshot st).getD (h * 2 + c) 0 := by
  subst hh
  have h24 : hourOf st.ltime < 24 := hourOf_lt _
  interval_cases c
  · rw [if_pos rfl, snapshot_getD st _ (by omega)]
    simp [tickTargets, hov]
  · rw [if_neg (by norm_num), snapshot_getD st _ (by omega)]
    simp [tickTargets, hov]

/-- State for the C3 witness: hour 7 and distinct slots 14 and 15. -/
def c3state : CtrlState :=
  ⟨List.replicate 14 0 ++ [77, 33] ++ List.replicate 32 0, [], false, 0, 0, 0, 0,
   7 * 3600 + 123⟩

/-- Witness for C3 at hour 7 on both channels. -/
theorem c3_witness :
    (tickTargets c3state).1 = (snapshot c3state).getD 14 0 ∧
    (tickTargets c3state).2 = (snapshot c3state).getD 15 0 :=
  ⟨c3_schedule_targets c3state 7 0 rfl (by decide) (by decide),
   c3_schedule_targets c3state 7 1 rfl (by decide) (by decide)⟩

/-! ## Claim C4 -/

/-- C4: while the override is active with pair (a, b), the tick's
targets are (a, b) for both channels regardless of the schedule; a
successful set-schedule clears the override, and the next tick's
targets are again the schedule slots of the current hour. -/
theorem c4_override_pair (st : CtrlState) (value : List Char)
    (hov : st.overrule = true) :
    tickTargets st = (st.ovA, st.ovB) ∧
    (handle_setconf st value).1.overrule = false ∧
    tickTargets (handle_setconf st value).1 =
      ((snapshot (handle_setconf st value).1).getD
         (hourOf (handle_setconf st value).1.ltime * 2) 0,
       (snapshot (handle_setconf st value).1).getD
         (hourOf (handle_setconf st value).1.ltime * 2 + 1) 0) := by
  refine ⟨by simp [tickTargets, hov], rfl, ?_⟩
  have hov2 : (handle_setconf st value).1.overrule = false := rfl
  have h24 : hourOf (handle_setconf st value).1.ltime < 24 := hourOf_lt _
  rw [snapshot_getD _ _ (by omega), snapshot_getD _ _ (by omega)]
  simp [tickTargets, hov2]

/-- State for the C4 witness: override (5, 6) over an all-9 schedule. -/
def c4state : CtrlState := ⟨List.replicate 48 9, [], true, 5, 6, 0, 0, 0⟩

/-- Witness for C4 with a concrete replace request. -/
theorem c4_witness :
    tickTargets c4state = (c4state.ovA, c4state.ovB) ∧
    (handle_setconf c4state (encodeCSV [80, 40])).1.overrule = false ∧
    tickTargets (handle_setconf c4state (encodeCSV [80, 40])).1 =
      ((snapshot (handle_setconf c4state (encodeCSV [80, 40])).1).getD
         (hourOf (handle_setconf c4state (encodeCSV [80, 40])).1.ltime * 2) 0,
       (snapshot (handle_setconf c4state (encodeCSV [80, 40])).1).getD
         (hourOf (handle_setconf c4state (encodeCSV [80, 40])).1.ltime * 2 + 1) 0) :=
  c4_override_pair c4state (encodeCSV [80, 40]) rfl

/-! ## Claim C5 -/

/-- C5: on every tick and per channel, a write is issued if and only if
the computed target differs from that channel's last written intensity;
and over a run of consecutive ticks with identical targets each channel
receives at most one write — exactly one when the first target differs
from the initial intensity, none otherwise. -/
theorem c5_debounce (st : CtrlState) (ok rd : Bool) (u n : Nat) :
    ((loopTick st ok rd u).writeA.isSome = true ↔
      (tickTargets (refreshLtime st ok rd u)).1 ≠ (refreshLtime st ok rd u).intensityA) ∧
    ((loopTick st ok rd u).writeB.isSome = true ↔
      (tickTargets (refreshLtime st ok rd u)).2 ≠ (refreshLtime st ok rd u).intensityB) ∧
    ((runTicks false rd u (n + 1) st).countP (fun w => w.1.isSome) =
      if (tickTargets st).1 = st.intensityA then 0 else 1) ∧
    ((runTicks false rd u (n + 1) st).countP (fun w => w.2.isSome) =
      if (tickTargets st).2 = st.intensityB then 0 else 1) := by
  have hrun : runTicks false rd u n (loopTick st false rd u).state =
      List.replicate n (none, none) := by
    rw [loopTick_state_intensities st rd u]
    exact runTicks_fixed rd u _ (by rw [tickTargets_set_intensity])
      (by rw [tickTargets_set_intensity]) n
  refine ⟨?_, ?_, ?_, ?_⟩
  · by_cases hc : (tickTargets (refreshLtime st ok rd u)).1 = (refreshLtime st ok rd u).intensityA
    · simp [loopTick, hc]
    · simp [loopTick, hc]
  · by_cases hc : (tickTargets (refreshLtime st ok rd u)).2 = (refreshLtime st ok rd u).intensityB
    · simp [loopTick, hc]
    · simp [loopTick, hc]
  · rw [runTicks, hrun]
    rw [List.countP_cons]
    rw [countP_replicate_false ((none, none) : Option Nat × Option Nat)
      (fun w => w.1.isSome) rfl n]
    by_cases hc : (tickTargets st).1 = st.intensityA
    · simp [loopTick, refreshLtime, hc]
    · simp [loopTick, refreshLtime, hc]
  · rw [runTicks, hrun]
    rw [List.countP_cons]
    rw [countP_replicate_false ((none, none) : Option Nat × Option Nat)
      (fun w => w.2.isSome) rfl n]
    by_cases hc : (tickTargets st).2 = st.intensityB
    · simp [loopTick, refreshLtime, hc]
    · simp [loopTick, refreshLtime, hc]

/-! ## Claim C6 -/

/-- Boot-time state for the C6 counterexample: the EEPROM-loaded
schedule has slot 0 = 55, no successful time sync has ever happened so
`ltime` is still 0, and both outputs are at their initial 0. -/
def c6state : CtrlState :=
  ⟨55 :: List.replicate 47 0, 55 :: List.replicate 47 0, false, 0, 0, 0, 0, 0⟩

/-- C6 counterexample: with the time source unsynchronized (`update()`
returned false on every tick since boot, `ltime` never refreshed), the
tick does not skip the decision-and-apply cycle: it computes the hour-0
schedule target 55 and writes it to lamp A, so the output does not hold
its previous value 0. -/
theorem c6_counterexample :
    (loopTick c6state false true 0).writeA = some 55 ∧
    (loopTick c6state false true 0).state.intensityA = 55 ∧
    c6state.intensityA = 0 :=
  ⟨rfl, rfl, rfl⟩

/-- C6 (amended): when the time source reports unsynchronized, the tick
leaves `ltime` unchanged but still performs the decision-and-apply
cycle, computing targets from the hour of the held `ltime` (initially
0) and writing each channel on change exactly as when synchronized. -/
theorem c6_no_skip_when_unsynced (st : CtrlState) (rd : Bool) (u : Nat) :
    (loopTick st false rd u).state.ltime = st.ltime ∧
    (loopTick st false rd u).writeA =
      (if (tickTargets st).1 = st.intensityA then none
       else some (tickTargets st).1) ∧
    (loopTick st false rd u).writeB =
      (if (tickTargets st).2 = st.intensityB then none
       else some (tickTargets st).2) :=
  ⟨rfl, rfl, rfl⟩

/-! ## Claim C7 -/

/-- C7: the diagnostic-log chunk generator is resumable and
terminating.  A call at cursor position 0 resets the iteration state
(its result does not depend on the leftover state of a previous pass);
a full pass of chunked calls — each chunk filled up to the requested
maximum, the pass ending at the first short chunk — concatenates to
exactly the stored lines in insertion order, each followed by a
newline; and a chunk shorter than requested signals end-of-stream:
the next call yields no bytes. -/
theorem c7_log_stream (dbg : List (List Char)) (k n : Nat) (gs gs2 gs3 : LogGen)
    (hk : 0 < k) (hn : (joinLines dbg).length < n * k)
    (hg3 : GenInv dbg gs3) (hshort : (cbLoop dbg k gs3).1.length < k) :
    cb_logging dbg k 0 gs = cb_logging dbg k 0 gs2 ∧
    (streamPass dbg k n 0 gs).flatten = joinLines dbg ∧
    (cbLoop dbg k (cbLoop dbg k gs3).2).1 = [] := by
  have hpend0 : pendingBytes dbg ⟨0, dbg.length, []⟩ = joinLines dbg := by
    rw [pendingBytes_mk]
    simp [joinLines]
  refine ⟨rfl, ?_, ?_⟩
  · rw [streamPass_eq_chunkRun dbg k hk n 0 gs, if_pos rfl]
    rw [chunkRun_spec dbg k hk n ⟨0, dbg.length, []⟩ ⟨rfl, Nat.zero_le _⟩
      (by rw [hpend0]; exact hn)]
    exact hpend0
  · obtain ⟨h1, h2, h3⟩ := cbLoop_spec dbg k gs3 hg3
    obtain ⟨h1', h2', h3'⟩ := cbLoop_spec dbg k (cbLoop dbg k gs3).2 h3
    rw [h1', h2]
    have hplen : (pendingBytes dbg gs3).length < k := by
      rw [h1, List.length_take] at hshort
      omega
    rw [List.drop_eq_nil_of_le (by omega)]
    exact List.take_nil

/-- Witness for C7 on a two-line log streamed in chunks of 3 bytes. -/
theorem c7_witness :
    cb_logging [['h','i'], ['x']] 3 0 ⟨5, 7, ['q']⟩ =
      cb_logging [['h','i'], ['x']] 3 0 ⟨0, 0, []⟩ ∧
    (streamPass [['h','i'], ['x']] 3 4 0 ⟨5, 7, ['q']⟩).flatten =
      joinLines [['h','i'], ['x']] ∧
    (cbLoop [['h','i'], ['x']] 3 (cbLoop [['h','i'], ['x']] 3 ⟨2, 2, []⟩).2).1 = [] :=
  c7_log_stream [['h','i'], ['x']] 3 4 ⟨5, 7, ['q']⟩ ⟨0, 0, []⟩ ⟨2, 2, []⟩
    (by decide) (by decide) (by decide) (by decide)

/-! ## Claim C8 -/

lemma suffix_getLast (suf s : List Char) (c : Char)
    (h : suf.isSuffixOf s = true) (hc : suf.getLast? = some c) :
    s.getLast? = some c := by
  have hs : suf <:+ s := List.isSuffixOf_iff_suffix.mp h
  obtain ⟨t, rfl⟩ := hs
  rw [List.getLast?_append, hc]
  rfl

lemma notSuffixOf_of_getLast {suf s : List Char} {a b : Char}
    (hs : s.getLast? = some a) (hsuf : suf.getLast? = some b) (hne : a ≠ b) :
    suf.isSuffixOf s = false := by
  cases h : suf.isSuffixOf s
  · rfl
  · exfalso
    have h2 := suffix_getLast suf s b h hsuf
    rw [hs] at h2
    exact hne (Option.some.inj h2)

lemma getContentType_pw (fnam : List Char)
    (h : (".pw".toList).isSuffixOf fnam = true) :
    getContentType fnam = "" := by
  have hl : fnam.getLast? = some 'w' :=
    suffix_getLast _ fnam 'w' h (by decide)
  have e1 : (".html".toList).isSuffixOf fnam = false :=
    notSuffixOf_of_getLast hl
      (show (".html".toList).getLast? = some 'l' by decide) (by decide)
  have e2 : (".png".toList).isSuffixOf fnam = false :=
    notSuffixOf_of_getLast hl
      (show (".png".toList).getLast? = some 'g' by decide) (by decide)
  have e3 : (".gif".toList).isSuffixOf fnam = false :=
    notSuffixOf_of_getLast hl
      (show (".gif".toList).getLast? = some 'f' by decide) (by decide)
  have e4 : (".jpg".toList).isSuffixOf fnam = false :=
    notSuffixOf_of_getLast hl
      (show (".jpg".toList).getLast? = some 'g' by decide) (by decide)
  have e5 : (".ico".toList).isSuffixOf fnam = false :=
    notSuffixOf_of_getLast hl
      (show (".ico".toList).getLast? = some 'o' by decide) (by decide)
  have e6 : (".css".toList).isSuffixOf fnam = false :=
    notSuffixOf_of_getLast hl
      (show (".css".toList).getLast? = some 's' by decide) (by decide)
  have e7 : (".zip".toList).isSuffixOf fnam = false :=
    notSuffixOf_of_getLast hl
      (show (".zip".toList).getLast? = some 'p' by decide) (by decide)
  have e8 : (".gz".toList).isSuffixOf fnam = false :=
    notSuffixOf_of_getLast hl
      (show (".gz".toList).getLast? = some 'z' by decide) (by decide)
  rw [getContentType, if_neg (by simp only [e1]; exact Bool.false_ne_true),
    if_neg (by simp only [e2]; exact Bool.false_ne_true),
    if_neg (by simp only [e3]; exact Bool.false_ne_true),
    if_neg (by simp only [e4]; exact Bool.false_ne_true),
    if_neg (by simp only [e5]; exact Bool.false_ne_true),
    if_neg (by simp only [e6]; exact Bool.false_ne_true),
    if_neg (by simp only [e7]; exact Bool.false_ne_true),
    if_neg (by simp only [e8]; exact Bool.false_ne_true), if_pos h]

/-- C8 counterexample: a present file with an unrecognized extension is
not refused with `NotFound` — `getContentType` falls through to
`text/plain` and the handler serves the file, contradicting the claimed
`NotFound` for unknown extensions. -/
theorem c8_counterexample :
    onFileRequest (fun _ => true) ("/data.xyz".toList) =
      FileResponse.fileSend ("/data.xyz".toList) "text/plain" ∧
    onFileRequest (fun _ => true) ("/data.xyz".toList) ≠
      FileResponse.notFound := by
  exact ⟨by decide, by decide⟩

/-- C8 (amended): a static-asset request returns `NotFound` when the
resource is missing, and a `.pw` credential file is refused with
`NotFound` even when present (its content type is the secret-marking
empty string); a present file with an unrecognized extension is not
refused but served with the fallback content type. -/
theorem c8_file_serving (fsE : List Char → Bool) (fnam : List Char) :
    (fsE fnam = false → onFileRequest fsE fnam = FileResponse.notFound) ∧
    ((".pw".toList).isSuffixOf fnam = true →
       onFileRequest fsE fnam = FileResponse.notFound) ∧
    (getContentType fnam ≠ "" → fsE fnam = true →
       onFileRequest fsE fnam = FileResponse.fileSend fnam (getContentType fnam)) := by
  refine ⟨?_, ?_, ?_⟩
  · intro hf
    rw [onFileRequest]
    by_cases hc : getContentType fnam = ""
    · rw [if_pos hc]
    · rw [if_neg hc, if_neg (by simp [hf])]
  · intro hpw
    rw [onFileRequest, if_pos (getContentType_pw fnam hpw)]
  · intro hct hf
    rw [onFileRequest, if_neg hct, if_pos hf]

/-- Witness for C8 (amended): a missing stylesheet, a present password
file, and a present page. -/
theorem c8_witness :
    onFileRequest (fun _ => false) ("/a.css".toList) = FileResponse.notFound ∧
    onFileRequest (fun _ => true) ("/x.pw".toList) = FileResponse.notFound ∧
    onFileRequest (fun _ => true) ("/i.html".toList) =
      FileResponse.fileSend ("/i.html".toList) (getContentType ("/i.html".toList)) :=
  ⟨(c8_file_serving (fun _ => false) ("/a.css".toList)).1 rfl,
   (c8_file_serving (fun _ => true) ("/x.pw".toList)).2.1 (by decide),
   (c8_file_serving (fun _ => true) ("/i.html".toList)).2.2 (by decide) rfl⟩

/-! ## Claim C9 -/

/-- C9: an append to the diagnostic log stores the new line at the end
when free memory is strictly above the 8000-byte threshold, and drops
it when free memory is at or below the threshold; in either case every
previously stored line is preserved in place (the stored log is a
prefix of the result), so the log degrades by dropping new entries,
never old ones. -/
theorem c9_append_only (freeHeap : Nat) (dbg : List (List Char)) (line : List Char) :
    (8000 < freeHeap → dbgprint freeHeap dbg line = dbg ++ [line]) ∧
    (freeHeap ≤ 8000 → dbgprint freeHeap dbg line = dbg) ∧
    (∃ t, dbgprint freeHeap dbg line = dbg ++ t) := by
  refine ⟨?_, ?_, ?_⟩
  · intro h
    rw [dbgprint, if_pos h]
  · intro h
    rw [dbgprint, if_neg (by omega)]
  · rw [dbgprint]
    by_cases h : 8000 < freeHeap
    · exact ⟨[line], by rw [if_pos h]⟩
    · exact ⟨[], by rw [if_neg h]; simp⟩

/-- Witness for C9 right at the threshold. -/
theorem c9_witness :
    dbgprint 8001 [['a']] ['b'] = [['a']] ++ [['b']] ∧
    dbgprint 8000 [['a']] ['b'] = [['a']] :=
  ⟨(c9_append_only 8001 [['a']] ['b']).1 (by decide),
   (c9_append_only 8000 [['a']] ['b']).2.1 (by decide)⟩

/-- Witness for C10: value 300 is stored as 44 and value -1 as 255. -/
theorem c10_witness :
    snapshot (handle_setconf ⟨[], [], false, 0, 0, 0, 0, 0⟩
        (encodeCSVI ((300 : Int) :: (-1) :: List.replicate 46 0))).1 =
      ((300 : Int) :: (-1) :: List.replicate 46 0).map (fun v => (v % 256).toNat) :=
  c10_mod256 ((300 : Int) :: (-1) :: List.replicate 46 0)
    ⟨[], [], false, 0, 0, 0, 0, 0⟩ (by decide)

end AqLed
